import Mathlib

/-!
A shallow embedding of the KVMemo in-memory key-value cache
(src/core/entry.h, lru_cache.h, ttl_index.h, shard.h, shard_manager.h,
kv_engine.h and src/eviction/memory_tracker.h, eviction_manager.h),
together with theorems settling the specification claims about it.

Machine integers: the engine stores timestamps and byte counters in
uint64_t / size_t; we model them as Nat and take the value modulo 2^64
exactly where the C++ arithmetic can overflow (Entry expiry addition,
MemoryTracker fetch_add / fetch_sub).

Containers: std::unordered_map is modelled as an association list whose
reachable states have pairwise-distinct keys; std::list as a List with
the front as the most recently used end; std::map as an association list
kept sorted in ascending key order.

A C++ operation that throws is modelled with Option / Except: the value
none (resp. Except.error) marks the states in which the source throws.
-/

namespace KVMemo

/-- 2^64: the modulus of uint64_t / size_t arithmetic. -/
def U64 : Nat := 18446744073709551616

abbrev Key := String

/-! ## Entry (src/core/entry.h) -/

/-- A stored record: value, creation time and expiry time in epoch
milliseconds, with `expireAt = 0` the never-expires sentinel. -/
structure Entry where
  value : String
  createdAt : Nat
  expireAt : Nat
  deriving Repr, DecidableEq

/-- `Entry(value)`: a non-expiring entry created at time `now`. -/
def Entry.noTTL (v : String) (now : Nat) : Entry :=
  { value := v, createdAt := now, expireAt := 0 }

/-- `Entry(value, ttl_ms)`: expiry is `created_at_ + ttl_ms` on uint64
(0 sentinel when `ttl_ms == 0`). -/
def Entry.withTTL (v : String) (now ttl : Nat) : Entry :=
  { value := v, createdAt := now,
    expireAt := if ttl = 0 then 0 else (now + ttl) % U64 }

/-- `Entry::HasTTL`: true when an expiration is configured. -/
def Entry.HasTTL (e : Entry) : Bool := e.expireAt != 0

/-- `Entry::isExpired`, with the clock reading passed explicitly:
false for the 0 sentinel, otherwise `now >= expire_at_`. -/
def Entry.isExpired (e : Entry) (now : Nat) : Bool :=
  if e.expireAt = 0 then false else decide (e.expireAt ≤ now)

/-! ## LRUCache (src/core/lru_cache.h)

`order_` is the recency list, front = most recently used; the hash map
`map_` holds exactly the keys of `order_`, so it is represented by list
membership. -/

structure LRUCache where
  capacity : Nat
  order : List Key
  deriving Repr, DecidableEq

/-- `LRUCache::Touch`: an existing key moves to the front and the call
returns false; a new key is pushed to the front and the call returns
`map_.size() > capacity_` evaluated after the insertion. -/
def LRUCache.Touch (c : LRUCache) (k : Key) : LRUCache × Bool :=
  if k ∈ c.order then
    ({ c with order := k :: c.order.erase k }, false)
  else
    ({ c with order := k :: c.order }, decide (c.order.length + 1 > c.capacity))

/-- `LRUCache::Remove`: erase the key's node if present (no-op if absent). -/
def LRUCache.Remove (c : LRUCache) (k : Key) : LRUCache :=
  { c with order := c.order.filter (fun x => x != k) }

/-- `LRUCache::PopEvictionCandidate`: remove and return the back (least
recently used) key; the source throws std::runtime_error on an empty
cache, modelled as `none`. -/
def LRUCache.PopEvictionCandidate (c : LRUCache) : Option (Key × LRUCache) :=
  match c.order.getLast? with
  | none => none
  | some v => some (v, { c with order := c.order.dropLast })

/-- `LRUCache::Size`: number of tracked keys. -/
def LRUCache.Size (c : LRUCache) : Nat := c.order.length

/-- A fresh cache (constructor requires capacity > 0 in the source). -/
def LRUCache.empty (cap : Nat) : LRUCache := { capacity := cap, order := [] }

/-! ## TTLIndex (src/core/ttl_index.h)

`expiry_map_` (std::map, ascending timestamps) is a sorted association
list from timestamp to the bucket of keys due then; `key_index_` is the
reverse association list. -/

structure TTLIndex where
  expiryMap : List (Nat × List Key)
  keyIndex : List (Key × Nat)
  deriving Repr, DecidableEq

def TTLIndex.empty : TTLIndex := { expiryMap := [], keyIndex := [] }

/-- Insert a key into the bucket for `ts`, keeping the ascending order
of `std::map` and appending within a bucket (`push_back`). -/
def bucketsInsert : List (Nat × List Key) → Nat → Key → List (Nat × List Key)
  | [], ts, k => [(ts, [k])]
  | (t, ks) :: rest, ts, k =>
    if ts < t then (ts, [k]) :: (t, ks) :: rest
    else if ts = t then (t, ks ++ [k]) :: rest
    else (t, ks) :: bucketsInsert rest ts k

/-- Erase the first occurrence of `k` from the bucket at `ts`
(the source loop breaks after the first match), dropping the bucket
when it becomes empty. -/
def bucketsEraseKey : List (Nat × List Key) → Nat → Key → List (Nat × List Key)
  | [], _, _ => []
  | (t, ks) :: rest, ts, k =>
    if t = ts then
      let ks' := ks.erase k
      if ks' = [] then rest else (t, ks') :: rest
    else (t, ks) :: bucketsEraseKey rest ts k

/-- `TTLIndex::Remove`: look up the reverse mapping; if present, erase
the key from its bucket and from the reverse mapping. -/
def TTLIndex.Remove (x : TTLIndex) (k : Key) : TTLIndex :=
  match x.keyIndex.find? (fun q => q.1 == k) with
  | none => x
  | some q =>
    { expiryMap := bucketsEraseKey x.expiryMap q.2 k,
      keyIndex := x.keyIndex.filter (fun q => q.1 != k) }

/-- `TTLIndex::Upsert`: remove any previous timestamp for the key, then
append the key to the bucket for `expire_at` and record the reverse
mapping. -/
def TTLIndex.Upsert (x : TTLIndex) (k : Key) (ts : Nat) : TTLIndex :=
  let x' := x.Remove k
  { expiryMap := bucketsInsert x'.expiryMap ts k,
    keyIndex := x'.keyIndex ++ [(k, ts)] }

/-- `TTLIndex::CollectExpired`: walk buckets from the smallest timestamp
while `bucket_ts <= now`, collecting their keys in order and erasing both
the buckets and the reverse entries. Returns the keys and the new index. -/
def TTLIndex.CollectExpired (x : TTLIndex) (now : Nat) : List Key × TTLIndex :=
  let dueBuckets := x.expiryMap.takeWhile (fun b => b.1 ≤ now)
  let keys := (dueBuckets.map Prod.snd).flatten
  (keys,
   { expiryMap := x.expiryMap.dropWhile (fun b => b.1 ≤ now),
     keyIndex := x.keyIndex.filter (fun q => !(keys.contains q.1)) })

/-- `TTLIndex::Size`: number of tracked keys. -/
def TTLIndex.Size (x : TTLIndex) : Nat := x.keyIndex.length

/-- The set of keys tracked by the TTL index (key set of `key_index_`). -/
def TTLIndex.keys (x : TTLIndex) : List Key := x.keyIndex.map Prod.fst

/-! ## MemoryTracker (src/eviction/memory_tracker.h)

`current_memory_bytes_` is a `std::atomic<std::size_t>`; `fetch_add` and
`fetch_sub` act modulo 2^64. -/

structure MemoryTracker where
  maxBytes : Nat
  current : Nat
  deriving Repr, DecidableEq

/-- `MemoryTracker::IsOverLimit`: `CurrentUsage() > max_memory_bytes_`. -/
def MemoryTracker.IsOverLimit (t : MemoryTracker) : Bool :=
  decide (t.current > t.maxBytes)

/-- `MemoryTracker::Reserve`: `fetch_add(bytes)` then report
`!IsOverLimit()`. -/
def MemoryTracker.Reserve (t : MemoryTracker) (b : Nat) : MemoryTracker × Bool :=
  let t' := { t with current := (t.current + b) % U64 }
  (t', !t'.IsOverLimit)

/-- `MemoryTracker::Release`: a plain `fetch_sub(bytes)` — size_t
subtraction modulo 2^64, with no saturation at zero. -/
def MemoryTracker.Release (t : MemoryTracker) (b : Nat) : MemoryTracker :=
  { t with current := (t.current + (U64 - b % U64)) % U64 }

/-- `MemoryTracker::CurrentUsage`. -/
def MemoryTracker.CurrentUsage (t : MemoryTracker) : Nat := t.current

/-! ## EvictionManager (src/eviction/eviction_manager.h)

The only policy implemented in the source is LRUPolicy, backed by an
LRUCache. `EvictionManager::OnWrite` / `OnDelete` /
`CollectEvictionCandidates` call `MemoryTracker::OnAllocation`,
`OnDeallocation` and `IsLimitExceeded`, none of which is declared in
memory_tracker.h; they are modelled from the spec below. -/

structure LRUPolicy where
  lru : LRUCache
  deriving Repr, DecidableEq

/-- `LRUPolicy::OnRead`: touch the key (the overflow flag is discarded). -/
def LRUPolicy.OnRead (p : LRUPolicy) (k : Key) : LRUPolicy :=
  { lru := (p.lru.Touch k).1 }

/-- `LRUPolicy::OnWrite`: touch the key (the overflow flag is discarded). -/
def LRUPolicy.OnWrite (p : LRUPolicy) (k : Key) : LRUPolicy :=
  { lru := (p.lru.Touch k).1 }

/-- `LRUPolicy::OnDelete`: remove the key from the recency structure. -/
def LRUPolicy.OnDelete (p : LRUPolicy) (k : Key) : LRUPolicy :=
  { lru := p.lru.Remove k }

/-- `LRUPolicy::SelectVictim`: returns `PopEvictionCandidate()`, which
throws std::runtime_error when the recency structure is empty; the
returned optional therefore always holds a value when the call returns,
and the throw is modelled as `Except.error ()`. -/
def LRUPolicy.SelectVictim (p : LRUPolicy) : Except Unit (Key × LRUPolicy) :=
  match p.lru.PopEvictionCandidate with
  | none => Except.error ()
  | some (k, lru') => Except.ok (k, { lru := lru' })

/-- Modelled from the spec: `MemoryTracker::OnAllocation` is called by
`EvictionManager::OnWrite` but is not declared in memory_tracker.h; per
the spec, on_write performs `memory_tracker.reserve(Δ)` and passing
`Δ = 1` per logical insertion is permitted (cardinality model). -/
def MemoryTracker.OnAllocation (t : MemoryTracker) : MemoryTracker :=
  (t.Reserve 1).1

/-- Modelled from the spec: `MemoryTracker::OnDeallocation` is called by
`EvictionManager::OnDelete` and per eviction candidate but is not
declared in memory_tracker.h; per the spec, on_delete performs
`memory_tracker.release(Δ)` with the same `Δ = 1`. -/
def MemoryTracker.OnDeallocation (t : MemoryTracker) : MemoryTracker :=
  t.Release 1

/-- Modelled from the spec: `MemoryTracker::IsLimitExceeded` (used by
`EvictionManager`) is the tracker's over-limit test `is_over_limit()`. -/
def MemoryTracker.IsLimitExceeded (t : MemoryTracker) : Bool :=
  t.IsOverLimit

structure EvictionManager where
  tracker : MemoryTracker
  policy : LRUPolicy
  deriving Repr, DecidableEq

/-- `EvictionManager::OnRead`: the policy observes the read. -/
def EvictionManager.OnRead (m : EvictionManager) (k : Key) : EvictionManager :=
  { m with policy := m.policy.OnRead k }

/-- `EvictionManager::OnWrite`: record the allocation, let the policy
observe the write (`EnforceMemoryLimit` has an empty body). -/
def EvictionManager.OnWrite (m : EvictionManager) (k : Key) : EvictionManager :=
  { tracker := m.tracker.OnAllocation, policy := m.policy.OnWrite k }

/-- `EvictionManager::OnDelete`: record the deallocation, let the policy
observe the deletion. -/
def EvictionManager.OnDelete (m : EvictionManager) (k : Key) : EvictionManager :=
  { tracker := m.tracker.OnDeallocation, policy := m.policy.OnDelete k }

/-- The `while(IsLimitExceeded())` loop of
`EvictionManager::CollectEvictionCandidates`: pop a victim
(the LRUPolicy throws when its recency structure is empty — the
`if(!candidate.has_value()) break` branch is unreachable with this
policy), append it, record one deallocation, repeat. -/
def collectGo (t : MemoryTracker) (p : LRUPolicy) (acc : List Key) :
    Except Unit (List Key × MemoryTracker × LRUPolicy) :=
  if h : t.current > t.maxBytes then
    match p.SelectVictim with
    | Except.error u => Except.error u
    | Except.ok (k, p') => collectGo (t.OnDeallocation) p' (acc ++ [k])
  else
    Except.ok (acc, t, p)
termination_by t.current
decreasing_by
  show (t.OnDeallocation).current < t.current
  unfold MemoryTracker.OnDeallocation MemoryTracker.Release
  simp only
  have h1 : 1 ≤ t.current := by omega
  rcases Nat.lt_or_ge t.current U64 with hlt | hge
  · have hm : 1 % U64 = 1 := by decide
    rw [hm]
    have he : t.current + (U64 - 1) = (t.current - 1) + U64 := by
      have hu : (1 : Nat) ≤ U64 := by decide
      omega
    rw [he, Nat.add_mod_right]
    have hlt2 : t.current - 1 < U64 := by omega
    rw [Nat.mod_eq_of_lt hlt2]
    omega
  · calc (t.current + (U64 - 1 % U64)) % U64 < U64 := Nat.mod_lt _ (by decide)
      _ ≤ t.current := hge

/-- `EvictionManager::CollectEvictionCandidates`. -/
def EvictionManager.CollectEvictionCandidates (m : EvictionManager) :
    Except Unit (List Key × EvictionManager) :=
  match collectGo m.tracker m.policy [] with
  | Except.error u => Except.error u
  | Except.ok (victims, t', p') =>
    Except.ok (victims, { tracker := t', policy := p' })

/-! ## Shard (src/core/shard.h)

`store_` (std::unordered_map<Key, Entry>) is an association list whose
reachable states have pairwise-distinct keys. -/

/-- `store_[key] = entry`: replace in place when the key is present,
insert otherwise. -/
def storeInsert (l : List (Key × Entry)) (k : Key) (e : Entry) :
    List (Key × Entry) :=
  if l.any (fun q => q.1 == k) then
    l.map (fun q => if q.1 == k then (k, e) else q)
  else
    l ++ [(k, e)]

/-- `store_.erase(key)`: drop the entry for the key. -/
def storeErase (l : List (Key × Entry)) (k : Key) : List (Key × Entry) :=
  l.filter (fun q => q.1 != k)

/-- `store_.find(key)`. -/
def storeFind (l : List (Key × Entry)) (k : Key) : Option Entry :=
  (l.find? (fun q => q.1 == k)).map Prod.snd

structure Shard where
  capacity : Nat
  store : List (Key × Entry)
  lru : LRUCache
  ttlIndex : TTLIndex
  deriving Repr, DecidableEq

/-- A freshly constructed shard with the given capacity. -/
def Shard.empty (cap : Nat) : Shard :=
  { capacity := cap, store := [], lru := LRUCache.empty cap,
    ttlIndex := TTLIndex.empty }

/-- `Shard::RemoveInternal`: erase from the map, the recency index and
the TTL index. -/
def Shard.RemoveInternal (s : Shard) (k : Key) : Shard :=
  { s with store := storeErase s.store k, lru := s.lru.Remove k,
           ttlIndex := s.ttlIndex.Remove k }

/-- `Shard::EvictOne`: no-op on an empty map; otherwise pop the least
recently used key and erase it from the map and the TTL index. The pop
throws on an empty recency list; such states are excluded by the shard
invariant (`|recency| == |map|`) and are mapped to the unchanged shard. -/
def Shard.EvictOne (s : Shard) : Shard :=
  if s.store.isEmpty then s
  else
    match s.lru.PopEvictionCandidate with
    | none => s
    | some (victim, lru') =>
      { s with store := storeErase s.store victim, lru := lru',
               ttlIndex := s.ttlIndex.Remove victim }

/-- `Shard::Set`: store a no-TTL entry, touch recency, remove the key
from the TTL index, and evict one entry on overflow. -/
def Shard.Set (s : Shard) (now : Nat) (k : Key) (v : String) : Shard :=
  let tch := s.lru.Touch k
  let s' := { s with store := storeInsert s.store k (Entry.noTTL v now),
                     lru := tch.1, ttlIndex := s.ttlIndex.Remove k }
  if tch.2 then s'.EvictOne else s'

/-- `Shard::SetWithTTL`: store the entry, touch recency, upsert the TTL
index when the entry has a TTL — the source has no else branch removing
a stale TTL entry — and evict one entry on overflow. -/
def Shard.SetWithTTL (s : Shard) (now : Nat) (k : Key) (v : String)
    (ttl : Nat) : Shard :=
  let e := Entry.withTTL v now ttl
  let tch := s.lru.Touch k
  let ti := if e.HasTTL then s.ttlIndex.Upsert k e.expireAt else s.ttlIndex
  let s' := { s with store := storeInsert s.store k e, lru := tch.1,
                     ttlIndex := ti }
  if tch.2 then s'.EvictOne else s'

/-- `Shard::Get`: a miss on an absent key; an expired entry is removed
via `RemoveInternal` and reported as a miss; otherwise touch recency and
return the value. -/
def Shard.Get (s : Shard) (now : Nat) (k : Key) : Option String × Shard :=
  match storeFind s.store k with
  | none => (none, s)
  | some e =>
    if e.isExpired now then (none, s.RemoveInternal k)
    else (some e.value, { s with lru := (s.lru.Touch k).1 })

/-- `Shard::Delete`. -/
def Shard.Delete (s : Shard) (k : Key) : Shard := s.RemoveInternal k

/-- `Shard::Size`: `store_.size()`. -/
def Shard.Size (s : Shard) : Nat := s.store.length

/-- `Shard::CleanupExpired`: collect the due keys from the TTL index and
remove each via `RemoveInternal`. -/
def Shard.CleanupExpired (s : Shard) (now : Nat) : Shard :=
  let col := s.ttlIndex.CollectExpired now
  col.1.foldl (fun acc k => acc.RemoveInternal k)
    { s with ttlIndex := col.2 }

/-! ## ShardManager (src/core/shard_manager.h)

`hasher_` (std::hash<std::string>) is implementation-defined; the model
carries it as a state component `hashF`. -/

structure ShardMgr where
  shards : List Shard
  hashF : Key → Nat

/-- `ShardManager::GetShard`: index `hasher_(key) % shard_count_`. -/
def ShardMgr.shardIdx (m : ShardMgr) (k : Key) : Nat :=
  m.hashF k % m.shards.length

/-- The shard a key routes to (constructor guarantees at least one
shard; the default is only reached on the unconstructible empty set). -/
def ShardMgr.GetShardV (m : ShardMgr) (k : Key) : Shard :=
  m.shards.getD (m.shardIdx k) (Shard.empty 0)

/-- Write back the routed shard after an operation. -/
def ShardMgr.putShard (m : ShardMgr) (k : Key) (sh : Shard) : ShardMgr :=
  { m with shards := m.shards.set (m.shardIdx k) sh }

/-- `ShardManager::Set`. -/
def ShardMgr.Set (m : ShardMgr) (now : Nat) (k : Key) (v : String) : ShardMgr :=
  m.putShard k ((m.GetShardV k).Set now k v)

/-- `ShardManager::SetWithTTL`. -/
def ShardMgr.SetWithTTL (m : ShardMgr) (now : Nat) (k : Key) (v : String)
    (ttl : Nat) : ShardMgr :=
  m.putShard k ((m.GetShardV k).SetWithTTL now k v ttl)

/-- `ShardManager::Get`. -/
def ShardMgr.Get (m : ShardMgr) (now : Nat) (k : Key) :
    Option String × ShardMgr :=
  let r := (m.GetShardV k).Get now k
  (r.1, m.putShard k r.2)

/-- `ShardManager::Delete`. -/
def ShardMgr.Delete (m : ShardMgr) (k : Key) : ShardMgr :=
  m.putShard k ((m.GetShardV k).Delete k)

/-! ## KVEngine (src/core/kv_engine.h)

The façade owns the shard manager, an engine-level TTLIndex of its own,
and the eviction manager. Each operation reads the clock once; the
reading is the explicit `now` argument. -/

structure KVEngine where
  sm : ShardMgr
  ttlIndex : TTLIndex
  em : EvictionManager

/-- `KVEngine::Set`: with a TTL argument — the value 0 included — route
to `SetWithTTL` and upsert the engine TTL index at
`NowEpochMillis() + ttl_ms`; without one, route to `Set` and remove the
key from the engine TTL index. Either way inform the eviction manager. -/
def KVEngine.Set (e : KVEngine) (now : Nat) (k : Key) (v : String)
    (ttl? : Option Nat) : KVEngine :=
  match ttl? with
  | some ttl =>
    { sm := e.sm.SetWithTTL now k v ttl,
      ttlIndex := e.ttlIndex.Upsert k ((now + ttl) % U64),
      em := e.em.OnWrite k }
  | none =>
    { sm := e.sm.Set now k v,
      ttlIndex := e.ttlIndex.Remove k,
      em := e.em.OnWrite k }

/-- `KVEngine::Get`: dispatch to the shard; only a hit informs the
eviction manager via `OnRead`. -/
def KVEngine.Get (e : KVEngine) (now : Nat) (k : Key) :
    Option String × KVEngine :=
  let r := e.sm.Get now k
  match r.1 with
  | some v => (some v, { e with sm := r.2, em := e.em.OnRead k })
  | none => (none, { e with sm := r.2 })

/-- `KVEngine::Delete`: dispatch, remove from the engine TTL index, and
inform the eviction manager regardless of prior presence. -/
def KVEngine.Delete (e : KVEngine) (k : Key) : KVEngine :=
  { sm := e.sm.Delete k,
    ttlIndex := e.ttlIndex.Remove k,
    em := e.em.OnDelete k }

/-- `KVEngine::ProcessExpired`: collect the due keys from the engine TTL
index and delete each from its shard, informing the eviction manager. -/
def KVEngine.ProcessExpired (e : KVEngine) (now : Nat) : KVEngine :=
  let col := e.ttlIndex.CollectExpired now
  col.1.foldl
    (fun acc k =>
      { acc with sm := acc.sm.Delete k, em := acc.em.OnDelete k })
    { e with ttlIndex := col.2 }

/-! ## Operation sequences over one shard (for the capacity-bound claim) -/

/-- One public shard operation, carrying its own clock reading. -/
inductive ShardOp where
  | setOp (now : Nat) (k : Key) (v : String)
  | setTTLOp (now : Nat) (k : Key) (v : String) (ttl : Nat)
  | getOp (now : Nat) (k : Key)
  | deleteOp (k : Key)
  | cleanupOp (now : Nat)

/-- Apply one public operation to a shard (the state part of `Get`). -/
def Shard.applyOp (s : Shard) : ShardOp → Shard
  | ShardOp.setOp now k v => s.Set now k v
  | ShardOp.setTTLOp now k v t => s.SetWithTTL now k v t
  | ShardOp.getOp now k => (s.Get now k).2
  | ShardOp.deleteOp k => s.Delete k
  | ShardOp.cleanupOp now => s.CleanupExpired now

/-- Run a finite sequence of public operations. -/
def Shard.runOps (s : Shard) (ops : List ShardOp) : Shard :=
  ops.foldl Shard.applyOp s

/-- The shard representation invariant: capacities agree with the
construction parameter, the recency list is a permutation of the map's
key set, the map's keys are pairwise distinct, and the map is within
capacity. -/
def ShardInv (C : Nat) (s : Shard) : Prop :=
  s.capacity = C ∧ s.lru.capacity = C ∧
  s.lru.order.Perm (s.store.map Prod.fst) ∧
  (s.store.map Prod.fst).Nodup ∧
  s.store.length ≤ C

/-! ## Concrete fixtures used by the scenario theorems -/

/-- A fresh single-shard engine: one shard of capacity 4, a trivial
hash, memory limit 100 and a policy recency cache of capacity 100. -/
def freshEngine : KVEngine :=
  { sm := { shards := [Shard.empty 4], hashF := fun _ => 0 },
    ttlIndex := TTLIndex.empty,
    em := { tracker := { maxBytes := 100, current := 0 },
            policy := { lru := LRUCache.empty 100 } } }

/-- The shard of the claim-C2 scenario: a TTL write overwritten by a
ttl-0 write of the same key. -/
def c2Shard : Shard :=
  ((Shard.empty 2).SetWithTTL 1000 ("k") ("v") 100).SetWithTTL 1001 ("k") ("w") 0

/-- The eviction manager of the claim-C4 scenario: over the memory
limit while the policy's recency structure is empty. -/
def c4Manager : EvictionManager :=
  { tracker := { maxBytes := 1, current := 2 },
    policy := { lru := LRUCache.empty 8 } }

/-- The engine of the claim-C5 scenario after one write and one delete
of the same key. -/
def c5Engine : KVEngine :=
  (freshEngine.Set 1000 ("a") ("v") none).Delete ("a")

/-- The recency index of the claim-C6 scenario: capacity 1, keys a and
b both tracked (the structure is over capacity). -/
def c6Cache : LRUCache :=
  (((LRUCache.empty 1).Touch ("a")).1.Touch ("b")).1

/-- The shard of the claim-C8 scenario after the five-operation LRU
eviction sequence. -/
def c8Shard : Shard :=
  ((((((Shard.empty 3).Set 1000 ("a") ("1")).Set 1001 ("b") ("2")).Set
      1002 ("c") ("3")).Get 1003 ("a")).2).Set 1004 ("d") ("4")

/-! ## Helper lemmas -/

lemma find?_key_filter_ne {β : Type} (l : List (Key × β)) (k : Key) :
    (l.filter (fun q => q.1 != k)).find? (fun q => q.1 == k) = none := by
  induction l with
  | nil => rfl
  | cons a tl ih =>
    by_cases h : a.1 = k
    · simp [List.filter_cons, h, ih]
    · simp [List.filter_cons, h, List.find?_cons, ih]

lemma ttlIndex_remove_of_find_none (x : TTLIndex) (k : Key)
    (h : x.keyIndex.find? (fun q => q.1 == k) = none) : x.Remove k = x := by
  unfold TTLIndex.Remove
  rw [h]

lemma ttlIndex_remove_find_none (x : TTLIndex) (k : Key) :
    (x.Remove k).keyIndex.find? (fun q => q.1 == k) = none := by
  unfold TTLIndex.Remove
  cases hf : x.keyIndex.find? (fun q => q.1 == k) with
  | none => simpa using hf
  | some q => simpa using find?_key_filter_ne x.keyIndex k

lemma ttlIndex_remove_idem (x : TTLIndex) (k : Key) :
    (x.Remove k).Remove k = x.Remove k :=
  ttlIndex_remove_of_find_none _ _ (ttlIndex_remove_find_none x k)

lemma storeErase_idem (l : List (Key × Entry)) (k : Key) :
    storeErase (storeErase l k) k = storeErase l k := by
  unfold storeErase
  simp [List.filter_filter]

lemma lru_remove_idem (c : LRUCache) (k : Key) :
    (c.Remove k).Remove k = c.Remove k := by
  unfold LRUCache.Remove
  simp [List.filter_filter]

lemma shard_removeInternal_idem (s : Shard) (k : Key) :
    (s.RemoveInternal k).RemoveInternal k = s.RemoveInternal k := by
  unfold Shard.RemoveInternal
  simp only [storeErase_idem, lru_remove_idem, ttlIndex_remove_idem]

lemma getD_set_self {α : Type} (l : List α) (i : Nat) (x d : α)
    (h : i < l.length) : (l.set i x).getD i d = x := by
  simp [List.getD_eq_getElem?_getD, List.getElem?_set, h]

lemma shardMgr_delete_delete_shards (m : ShardMgr) (k : Key) :
    ((m.Delete k).Delete k).shards = (m.Delete k).shards := by
  unfold ShardMgr.Delete ShardMgr.putShard ShardMgr.GetShardV ShardMgr.shardIdx
    Shard.Delete
  simp only [List.length_set]
  rcases Nat.eq_zero_or_pos m.shards.length with h0 | hpos
  · have he : m.shards = [] := List.length_eq_zero.mp h0
    simp [he]
  · have hidx : m.hashF k % m.shards.length < m.shards.length :=
      Nat.mod_lt _ hpos
    rw [getD_set_self _ _ _ _ hidx, shard_removeInternal_idem, List.set_set]

lemma mem_of_getLast?_eq_some {α : Type} {a : α} {l : List α}
    (h : l.getLast? = some a) : a ∈ l := by
  have hm : a ∈ l.getLast? := by simp [Option.mem_def, h]
  rcases List.mem_getLast?_eq_getLast hm with ⟨hne, rfl⟩
  exact List.getLast_mem hne

lemma storeAny_eq_true_iff (l : List (Key × Entry)) (k : Key) :
    l.any (fun q => q.1 == k) = true ↔ k ∈ l.map Prod.fst := by
  simp [List.any_eq_true, List.mem_map]

lemma find?_filter_of_imp {α : Type} (l : List α) (p q : α → Bool)
    (h : ∀ x, q x = true → p x = true) :
    (l.filter p).find? q = l.find? q := by
  induction l with
  | nil => rfl
  | cons a tl ih =>
    cases hp : p a with
    | true =>
      cases hq : q a with
      | true => simp [List.filter_cons, hp, List.find?_cons, hq]
      | false => simp [List.filter_cons, hp, List.find?_cons, hq, ih]
    | false =>
      have hq : q a = false := by
        cases hqa : q a with
        | true => rw [h a hqa] at hp; cases hp
        | false => rfl
      simp [List.filter_cons, hp, List.find?_cons, hq, ih]

lemma map_fst_storeErase (l : List (Key × Entry)) (k : Key) :
    (storeErase l k).map Prod.fst = (l.map Prod.fst).filter (fun x => x != k) := by
  unfold storeErase
  induction l with
  | nil => rfl
  | cons a tl ih =>
    by_cases h : a.1 = k <;> simp [List.filter_cons, h, ih]

lemma map_fst_storeInsert_mem (l : List (Key × Entry)) (k : Key) (e : Entry)
    (h : k ∈ l.map Prod.fst) :
    (storeInsert l k e).map Prod.fst = l.map Prod.fst := by
  unfold storeInsert
  rw [if_pos ((storeAny_eq_true_iff l k).mpr h)]
  rw [List.map_map]
  apply List.map_congr_left
  intro q _
  by_cases hq : q.1 = k <;> simp [hq]

lemma map_fst_storeInsert_not_mem (l : List (Key × Entry)) (k : Key) (e : Entry)
    (h : k ∉ l.map Prod.fst) :
    (storeInsert l k e).map Prod.fst = l.map Prod.fst ++ [k] := by
  unfold storeInsert
  rw [if_neg (fun hc => h ((storeAny_eq_true_iff l k).mp hc))]
  simp

lemma nodup_storeInsert (l : List (Key × Entry)) (k : Key) (e : Entry)
    (h : (l.map Prod.fst).Nodup) :
    ((storeInsert l k e).map Prod.fst).Nodup := by
  by_cases hm : k ∈ l.map Prod.fst
  · rw [map_fst_storeInsert_mem l k e hm]; exact h
  · rw [map_fst_storeInsert_not_mem l k e hm]
    exact (List.perm_append_singleton k (l.map Prod.fst)).symm.nodup
      (List.nodup_cons.mpr ⟨hm, h⟩)

lemma nodup_storeErase (l : List (Key × Entry)) (k : Key)
    (h : (l.map Prod.fst).Nodup) :
    ((storeErase l k).map Prod.fst).Nodup := by
  rw [map_fst_storeErase]
  exact h.filter _

lemma storeFind_insert (l : List (Key × Entry)) (k : Key) (e : Entry) :
    storeFind (storeInsert l k e) k = some e := by
  unfold storeFind storeInsert
  by_cases hm : l.any (fun q => q.1 == k) = true
  · rw [if_pos hm]
    induction l with
    | nil => cases hm
    | cons a tl ih =>
      by_cases h : a.1 = k
      · simp [List.find?_cons, h]
      · have hm' : tl.any (fun q => q.1 == k) = true := by
          simpa [List.any_cons, h] using hm
        simpa [List.find?_cons, h] using ih hm'
  · rw [if_neg hm]
    rw [List.find?_append]
    have hnone : l.find? (fun q => q.1 == k) = none := by
      apply List.find?_eq_none.mpr
      intro q hq hqk
      exact hm (List.any_eq_true.mpr ⟨q, hq, hqk⟩)
    simp [hnone]

lemma storeFind_erase_ne (l : List (Key × Entry)) (w k : Key) (h : w ≠ k) :
    storeFind (storeErase l w) k = storeFind l k := by
  unfold storeFind storeErase
  rw [find?_filter_of_imp]
  intro q hq
  have hqk : q.1 = k := by simpa using hq
  simpa [hqk] using (Ne.symm h)

lemma storeFind_erase_self (l : List (Key × Entry)) (k : Key) :
    storeFind (storeErase l k) k = none := by
  unfold storeFind storeErase
  rw [find?_key_filter_ne]
  rfl

lemma mem_of_storeFind_some (l : List (Key × Entry)) (k : Key) (e : Entry)
    (h : storeFind l k = some e) : k ∈ l.map Prod.fst := by
  unfold storeFind at h
  induction l with
  | nil => cases h
  | cons a tl ih =>
    cases hak : (a.1 == k) with
    | true =>
      have : a.1 = k := by simpa using hak
      simp [this]
    | false =>
      rw [List.find?_cons, hak] at h
      have hmem := ih h
      simp only [List.map_cons, List.mem_cons]
      exact Or.inr hmem

lemma length_filter_ne_of_nodup (xs : List Key) (k : Key)
    (hnd : xs.Nodup) (hm : k ∈ xs) :
    (xs.filter (fun x => x != k)).length = xs.length - 1 := by
  induction xs with
  | nil => cases hm
  | cons a tl ih =>
    by_cases hak : a = k
    · subst hak
      have hnin : a ∉ tl := (List.nodup_cons.mp hnd).1
      have hall : ∀ x ∈ tl, (x != a) = true := by
        intro x hx
        have hxa : x ≠ a := fun he => hnin (he ▸ hx)
        simpa using hxa
      simp [List.filter_cons, List.filter_eq_self.mpr hall]
    · have hmem : k ∈ tl := by
        rcases List.mem_cons.mp hm with he | hmem
        · exact absurd he.symm hak
        · exact hmem
      have h1 : 1 ≤ tl.length := List.length_pos.mpr (List.ne_nil_of_mem hmem)
      have ihe := ih (List.nodup_cons.mp hnd).2 hmem
      simp [List.filter_cons, hak, ihe]
      omega

lemma length_storeErase_of_mem (l : List (Key × Entry)) (k : Key)
    (hnd : (l.map Prod.fst).Nodup) (hm : k ∈ l.map Prod.fst) :
    (storeErase l k).length = l.length - 1 := by
  have h1 : (storeErase l k).length = ((storeErase l k).map Prod.fst).length := by
    simp
  have h2 : l.length = (l.map Prod.fst).length := by simp
  rw [h1, map_fst_storeErase, h2]
  exact length_filter_ne_of_nodup (l.map Prod.fst) k hnd hm

lemma storeInsert_ne_nil (l : List (Key × Entry)) (k : Key) (e : Entry) :
    storeInsert l k e ≠ [] := by
  unfold storeInsert
  by_cases hm : l.any (fun q => q.1 == k) = true
  · rw [if_pos hm]
    rcases l with _ | ⟨a, tl⟩
    · cases hm
    · simp
  · rw [if_neg hm]
    simp

lemma isEmpty_eq_false_of_ne_nil {α : Type} {l : List α} (h : l ≠ []) :
    l.isEmpty = false := by
  cases l with
  | nil => exact absurd rfl h
  | cons a tl => rfl

lemma evictOne_mk (cap : Nat) (st : List (Key × Entry)) (lc : Nat)
    (ord : List Key) (ti : TTLIndex) (hst : st ≠ []) (w : Key)
    (hw : ord.getLast? = some w) :
    (Shard.mk cap st (LRUCache.mk lc ord) ti).EvictOne
      = Shard.mk cap (storeErase st w) (LRUCache.mk lc ord.dropLast)
          (ti.Remove w) := by
  unfold Shard.EvictOne LRUCache.PopEvictionCandidate
  simp [isEmpty_eq_false_of_ne_nil hst, hw]

lemma setWithTTL_find_and_nodup (s : Shard) (now : Nat) (k : Key) (v : String)
    (t : Nat) (hcap : 1 ≤ s.lru.capacity)
    (hnd : (s.store.map Prod.fst).Nodup) :
    storeFind (s.SetWithTTL now k v t).store k = some (Entry.withTTL v now t) ∧
    ((s.SetWithTTL now k v t).store.map Prod.fst).Nodup := by
  unfold Shard.SetWithTTL
  by_cases hm : k ∈ s.lru.order
  · have htc : s.lru.Touch k
        = ({ s.lru with order := k :: s.lru.order.erase k }, false) := by
      unfold LRUCache.Touch
      rw [if_pos hm]
    simp only [htc, Bool.false_eq_true, if_false]
    exact ⟨storeFind_insert s.store k _, nodup_storeInsert s.store k _ hnd⟩
  · have htc : s.lru.Touch k
        = ({ s.lru with order := k :: s.lru.order },
           decide (s.lru.order.length + 1 > s.lru.capacity)) := by
      unfold LRUCache.Touch
      rw [if_neg hm]
    by_cases hov : s.lru.order.length + 1 > s.lru.capacity
    · have horder : s.lru.order ≠ [] := by
        intro h0
        rw [h0] at hov
        simp at hov
        omega
      obtain ⟨w, hw⟩ : ∃ w, (k :: s.lru.order).getLast? = some w :=
        ⟨(k :: s.lru.order).getLast (by simp),
         List.getLast?_eq_getLast_of_ne_nil (by simp)⟩
      have hw2 : (k :: s.lru.order).getLast? = s.lru.order.getLast? := by
        cases hlo : s.lru.order with
        | nil => exact absurd hlo horder
        | cons b rest => exact List.getLast?_cons_cons
      have hwmem : w ∈ s.lru.order :=
        mem_of_getLast?_eq_some (by rw [← hw2]; exact hw)
      have hwk : w ≠ k := fun he => hm (he ▸ hwmem)
      have hdec : decide (s.lru.order.length + 1 > s.lru.capacity) = true := by
        simpa using hov
      simp only [htc, hdec, if_true]
      rw [evictOne_mk _ _ _ _ _ (storeInsert_ne_nil s.store k _) w hw]
      constructor
      · rw [storeFind_erase_ne _ w k hwk]
        exact storeFind_insert s.store k _
      · exact nodup_storeErase _ w (nodup_storeInsert s.store k _ hnd)
    · have hdec : decide (s.lru.order.length + 1 > s.lru.capacity) = false := by
        simpa using hov
      simp only [htc, hdec, Bool.false_eq_true, if_false]
      exact ⟨storeFind_insert s.store k _, nodup_storeInsert s.store k _ hnd⟩

lemma shardInv_removeInternal (C : Nat) (s : Shard) (k : Key)
    (h : ShardInv C s) : ShardInv C (s.RemoveInternal k) := by
  obtain ⟨h1, h2, h3, h4, h5⟩ := h
  refine ⟨h1, h2, ?_, ?_, ?_⟩
  · show (s.lru.order.filter (fun x => x != k)).Perm
      ((storeErase s.store k).map Prod.fst)
    rw [map_fst_storeErase]
    exact h3.filter _
  · show ((storeErase s.store k).map Prod.fst).Nodup
    exact nodup_storeErase _ _ h4
  · show (storeErase s.store k).length ≤ C
    calc (storeErase s.store k).length ≤ s.store.length :=
          List.length_filter_le _ _
      _ ≤ C := h5

lemma shardInv_insert_generic (C : Nat) (s : Shard) (k : Key)
    (e : Entry) (ti : TTLIndex) (h : ShardInv C s) :
    ShardInv C
      (if (s.lru.Touch k).2
       then (Shard.mk s.capacity (storeInsert s.store k e)
               (s.lru.Touch k).1 ti).EvictOne
       else Shard.mk s.capacity (storeInsert s.store k e)
               (s.lru.Touch k).1 ti) := by
  obtain ⟨h1, h2, h3, h4, h5⟩ := h
  by_cases hm : k ∈ s.lru.order
  · have htc : s.lru.Touch k
        = ({ s.lru with order := k :: s.lru.order.erase k }, false) := by
      unfold LRUCache.Touch
      rw [if_pos hm]
    have hkeys : k ∈ s.store.map Prod.fst := h3.mem_iff.mp hm
    have hleneq : (storeInsert s.store k e).length = s.store.length := by
      have hc := congrArg List.length (map_fst_storeInsert_mem s.store k e hkeys)
      simpa using hc
    simp only [htc, Bool.false_eq_true, if_false]
    refine ⟨h1, h2, ?_, nodup_storeInsert _ _ _ h4, ?_⟩
    · show (k :: s.lru.order.erase k).Perm
        ((storeInsert s.store k e).map Prod.fst)
      rw [map_fst_storeInsert_mem _ _ _ hkeys]
      exact (List.perm_cons_erase hm).symm.trans h3
    · show (storeInsert s.store k e).length ≤ C
      omega
  · have htc : s.lru.Touch k
        = ({ s.lru with order := k :: s.lru.order },
           decide (s.lru.order.length + 1 > s.lru.capacity)) := by
      unfold LRUCache.Touch
      rw [if_neg hm]
    have hknotin : k ∉ s.store.map Prod.fst := fun hk => hm (h3.mem_iff.mpr hk)
    have hmapins : (storeInsert s.store k e).map Prod.fst
        = s.store.map Prod.fst ++ [k] :=
      map_fst_storeInsert_not_mem _ _ _ hknotin
    have hperm' : (k :: s.lru.order).Perm
        ((storeInsert s.store k e).map Prod.fst) := by
      rw [hmapins]
      exact (h3.cons k).trans (List.perm_append_singleton k _).symm
    have hnd' : ((storeInsert s.store k e).map Prod.fst).Nodup :=
      nodup_storeInsert _ _ _ h4
    have hlenins : (storeInsert s.store k e).length = s.store.length + 1 := by
      have hc := congrArg List.length hmapins
      simpa using hc
    have hlen_eq : s.lru.order.length = s.store.length := by
      have hc := h3.length_eq
      simpa using hc
    by_cases hov : s.lru.order.length + 1 > s.lru.capacity
    · have hdec : decide (s.lru.order.length + 1 > s.lru.capacity) = true := by
        simpa using hov
      simp only [htc, hdec, if_true]
      obtain ⟨w, hw⟩ : ∃ w, (k :: s.lru.order).getLast? = some w :=
        ⟨(k :: s.lru.order).getLast (by simp),
         List.getLast?_eq_getLast_of_ne_nil (by simp)⟩
      rw [evictOne_mk _ _ _ _ _ (storeInsert_ne_nil s.store k e) w hw]
      have hwmemL : w ∈ k :: s.lru.order := mem_of_getLast?_eq_some hw
      have hndL : (k :: s.lru.order).Nodup := hperm'.symm.nodup hnd'
      have hdecomp : (k :: s.lru.order).dropLast ++ [w] = k :: s.lru.order :=
        List.dropLast_append_getLast? w (by simp [Option.mem_def, hw])
      have hdropw : ∀ x ∈ (k :: s.lru.order).dropLast, (x != w) = true := by
        intro x hx
        have hnd2 : ((k :: s.lru.order).dropLast ++ [w]).Nodup := by
          rw [hdecomp]; exact hndL
        have hdisj := (List.nodup_append.mp hnd2).2.2
        have hxw : x ≠ w := by
          intro he
          exact hdisj hx (by simp [he])
        simpa using hxw
      have hfilterL : (k :: s.lru.order).filter (fun x => x != w)
          = (k :: s.lru.order).dropLast := by
        conv_lhs => rw [← hdecomp]
        rw [List.filter_append]
        rw [List.filter_eq_self.mpr hdropw]
        simp
      have hwmem' : w ∈ (storeInsert s.store k e).map Prod.fst :=
        hperm'.mem_iff.mp hwmemL
      refine ⟨h1, h2, ?_, ?_, ?_⟩
      · show ((k :: s.lru.order).dropLast).Perm
          ((storeErase (storeInsert s.store k e) w).map Prod.fst)
        rw [map_fst_storeErase, ← hfilterL]
        exact hperm'.filter _
      · show ((storeErase (storeInsert s.store k e) w).map Prod.fst).Nodup
        exact nodup_storeErase _ _ hnd'
      · show (storeErase (storeInsert s.store k e) w).length ≤ C
        rw [length_storeErase_of_mem _ _ hnd' hwmem', hlenins]
        omega
    · have hdec : decide (s.lru.order.length + 1 > s.lru.capacity) = false := by
        simpa using hov
      simp only [htc, hdec, Bool.false_eq_true, if_false]
      refine ⟨h1, h2, hperm', hnd', ?_⟩
      show (storeInsert s.store k e).length ≤ C
      rw [hlenins]
      omega

lemma shardInv_set (C : Nat) (s : Shard) (now : Nat) (k : Key) (v : String)
    (h : ShardInv C s) : ShardInv C (s.Set now k v) :=
  shardInv_insert_generic C s k (Entry.noTTL v now) (s.ttlIndex.Remove k) h

lemma shardInv_setWithTTL (C : Nat) (s : Shard) (now : Nat) (k : Key)
    (v : String) (t : Nat) (h : ShardInv C s) :
    ShardInv C (s.SetWithTTL now k v t) :=
  shardInv_insert_generic C s k (Entry.withTTL v now t)
    (if (Entry.withTTL v now t).HasTTL
     then s.ttlIndex.Upsert k (Entry.withTTL v now t).expireAt
     else s.ttlIndex) h

lemma shardInv_get (C : Nat) (s : Shard) (now : Nat) (k : Key)
    (h : ShardInv C s) : ShardInv C ((s.Get now k).2) := by
  have h' := h
  obtain ⟨h1, h2, h3, h4, h5⟩ := h
  cases hf : storeFind s.store k with
  | none =>
    have hid : (s.Get now k).2 = s := by
      unfold Shard.Get
      rw [hf]
    rw [hid]
    exact h'
  | some e =>
    cases hexp : e.isExpired now with
    | true =>
      have hstep : (s.Get now k).2 = s.RemoveInternal k := by
        unfold Shard.Get
        rw [hf]
        simp [hexp]
      rw [hstep]
      exact shardInv_removeInternal C s k h'
    | false =>
      have hkeys : k ∈ s.store.map Prod.fst := mem_of_storeFind_some _ _ _ hf
      have hm : k ∈ s.lru.order := h3.mem_iff.mpr hkeys
      have htc : s.lru.Touch k
          = ({ s.lru with order := k :: s.lru.order.erase k }, false) := by
        unfold LRUCache.Touch
        rw [if_pos hm]
      have hstep : (s.Get now k).2
          = { s with lru := { s.lru with order := k :: s.lru.order.erase k } } := by
        unfold Shard.Get
        rw [hf]
        simp [hexp, htc]
      rw [hstep]
      refine ⟨h1, h2, ?_, h4, h5⟩
      show (k :: s.lru.order.erase k).Perm (s.store.map Prod.fst)
      exact (List.perm_cons_erase hm).symm.trans h3

lemma shardInv_fold_remove (C : Nat) (ks : List Key) :
    ∀ s, ShardInv C s →
      ShardInv C (ks.foldl (fun acc k => acc.RemoveInternal k) s) := by
  induction ks with
  | nil => intro s h; exact h
  | cons a tl ih =>
    intro s h
    exact ih _ (shardInv_removeInternal C s a h)

lemma shardInv_cleanup (C : Nat) (s : Shard) (now : Nat)
    (h : ShardInv C s) : ShardInv C (s.CleanupExpired now) := by
  obtain ⟨h1, h2, h3, h4, h5⟩ := h
  unfold Shard.CleanupExpired
  exact shardInv_fold_remove C _ _ ⟨h1, h2, h3, h4, h5⟩

lemma shardInv_applyOp (C : Nat) (s : Shard) (op : ShardOp)
    (h : ShardInv C s) : ShardInv C (s.applyOp op) := by
  cases op with
  | setOp now k v => exact shardInv_set C s now k v h
  | setTTLOp now k v t => exact shardInv_setWithTTL C s now k v t h
  | getOp now k => exact shardInv_get C s now k h
  | deleteOp k => exact shardInv_removeInternal C s k h
  | cleanupOp now => exact shardInv_cleanup C s now h

lemma shardInv_runOps (C : Nat) (ops : List ShardOp) :
    ∀ s, ShardInv C s → ShardInv C (s.runOps ops) := by
  induction ops with
  | nil => intro s h; exact h
  | cons op tl ih =>
    intro s h
    exact ih _ (shardInv_applyOp C s op h)

lemma shardInv_empty (C : Nat) : ShardInv C (Shard.empty C) :=
  ⟨rfl, rfl, List.Perm.refl _, List.nodup_nil, Nat.zero_le C⟩

/-! ## Claim theorems -/

/-- C1: the claim fails on the code. After `Set("k", "v")` with
`ttl_ms = 0` on a fresh engine, `KVEngine::Set` still upserts the key
into the engine-level TTL index at expiry `now + 0`, so the very first
`ProcessExpired` deletes the supposedly never-expiring entry and the
following `get` misses, while a `get` before the sweep still hits. -/
theorem engine_set_ttl0_killed_by_process_expired :
    ((((freshEngine.Set 1000 ("k") ("v") (some 0)).ProcessExpired 1000).Get
        1000 ("k")).1 = none) ∧
    (((freshEngine.Set 1000 ("k") ("v") (some 0)).Get 1000 ("k")).1
        = some ("v")) := by
  constructor
  · rfl
  · rfl

/-- C2: the claim fails on the code. Overwriting a TTL-carrying key by
`SetWithTTL` with `ttl_ms = 0` stores a no-TTL entry but leaves the key
tracked by the shard's TTL index (`Shard::SetWithTTL` has no else branch
calling `ttl_index_.Remove`), so the TTL-index key set is {k} while the
set of map keys with a TTL is empty. -/
theorem shard_ttl0_overwrite_leaves_stale_index :
    (c2Shard.ttlIndex.keys = [("k")]) ∧
    (storeFind c2Shard.store ("k")
        = some { value := ("w"), createdAt := 1001, expireAt := 0 }) := by
  constructor
  · rfl
  · rfl

/-- C3: the claim fails on the code. `MemoryTracker::Release` is a plain
`fetch_sub` on a `size_t`, so releasing 1 byte from usage 0 wraps to
2^64 - 1 instead of saturating at 0. -/
theorem release_wraps_below_zero :
    (MemoryTracker.Release { maxBytes := 100, current := 0 } 1).CurrentUsage
      = U64 - 1 := by
  decide

/-- C6: counterexample to the claim. On a capacity-1 recency index
already holding keys a and b (size 2 > capacity 1), `Touch` of the
already-present key a returns false although `Size() > Capacity()` holds
after the operation, so the returned flag is not
`Size() > Capacity()`. -/
theorem lru_touch_present_overflow_mismatch :
    ¬ (((c6Cache.Touch ("a")).2 = true) ↔
        ((c6Cache.Touch ("a")).1.Size > (c6Cache.Touch ("a")).1.capacity)) := by
  decide

/-- C6 (amended): `Touch(k)` returns true iff k was absent before the
call and the insertion left `Size() > Capacity()`; for an
already-present key it returns false even when the structure is over
capacity. -/
theorem lru_touch_overflow_iff (c : LRUCache) (k : Key) :
    (c.Touch k).2 = true ↔ (k ∉ c.order ∧ (c.Touch k).1.Size > c.capacity) := by
  unfold LRUCache.Touch LRUCache.Size
  by_cases h : k ∈ c.order
  · simp [h]
  · simp [h]

/-- C4: the claim fails on the code. With the tracker over its limit and
the LRU policy's recency structure empty, `LRUPolicy::SelectVictim`
calls `LRUCache::PopEvictionCandidate`, which throws std::runtime_error;
the exception propagates out of `CollectEvictionCandidates` instead of
the loop breaking and returning the victims gathered so far. -/
theorem collect_candidates_throws_on_empty_policy :
    c4Manager.CollectEvictionCandidates = Except.error () := by
  rw [EvictionManager.CollectEvictionCandidates, collectGo]
  rfl

/-- C5: counterexample to the claim. On the engine holding one key a
(tracker usage 1) a first delete of a brings usage to 0; a second
delete of a releases again and wraps the tracker to 2^64 - 1, so the
state after `delete(a); delete(a)` differs from the state after
`delete(a)`. -/
theorem engine_double_delete_not_idempotent :
    ¬ (c5Engine.Delete ("a") = c5Engine) := by
  intro h
  have h2 := congrArg (fun st => st.em.tracker.current) h
  have h3 : (c5Engine.Delete ("a")).em.tracker.current
      ≠ c5Engine.em.tracker.current := by decide
  exact h3 h2

/-- C5 (amended): `delete(k); delete(k)` agrees with `delete(k)` on the
shard contents, the engine TTL index and the eviction policy's
bookkeeping, but the second delete unconditionally releases the per-key
delta from the memory tracker once more (a modular `fetch_sub`), so
full-state idempotence fails exactly on the tracker's usage counter. -/
theorem engine_delete_idempotent_except_tracker (e : KVEngine) (k : Key) :
    (((e.Delete k).Delete k).sm.shards = (e.Delete k).sm.shards) ∧
    (((e.Delete k).Delete k).ttlIndex = (e.Delete k).ttlIndex) ∧
    (((e.Delete k).Delete k).em.policy = (e.Delete k).em.policy) ∧
    (((e.Delete k).Delete k).em.tracker
        = (e.Delete k).em.tracker.Release 1) := by
  refine ⟨?_, ?_, ?_, ?_⟩
  · exact shardMgr_delete_delete_shards e.sm k
  · exact ttlIndex_remove_idem e.ttlIndex k
  · exact congrArg LRUPolicy.mk (lru_remove_idem (e.em.policy.lru) k)
  · rfl

/-- C8: on a fresh capacity-3 shard, the sequence
set a, set b, set c, get a, set d evicts exactly the key b: the final
map keys are a, c, d and b is absent. -/
theorem shard_lru_scenario_evicts_b :
    (c8Shard.store.map Prod.fst = [("a"), ("c"), ("d")]) ∧
    (storeFind c8Shard.store ("b") = none) := by
  constructor
  · rfl
  · rfl

/-- C7: after `set_with_ttl(k, v, t)` with `t > 0`, once the clock has
advanced to any `now1` at least `t` past the write, `get(k)` misses even
though no sweep has run, and the lazy removal shrinks the shard's map by
exactly one entry and leaves k absent. (Hypotheses: the expiry fits in
uint64, the recency capacity is positive as the constructor enforces,
and the map's keys are distinct as in every reachable state.) -/
theorem shard_ttl_expiry_observed_by_get (s : Shard) (k : Key) (v : String)
    (t now0 now1 : Nat) (ht : 0 < t) (hbound : now0 + t < U64)
    (hadv : now0 + t ≤ now1) (hcap : 1 ≤ s.lru.capacity)
    (hnd : (s.store.map Prod.fst).Nodup) :
    (((s.SetWithTTL now0 k v t).Get now1 k).1 = none) ∧
    (((s.SetWithTTL now0 k v t).Get now1 k).2.Size
        = (s.SetWithTTL now0 k v t).Size - 1) ∧
    (storeFind (((s.SetWithTTL now0 k v t).Get now1 k).2).store k = none) := by
  obtain ⟨hfind, hnd1⟩ := setWithTTL_find_and_nodup s now0 k v t hcap hnd
  have hexp : (Entry.withTTL v now0 t).isExpired now1 = true := by
    have ht0 : t ≠ 0 := by omega
    have hmod : (now0 + t) % U64 = now0 + t := Nat.mod_eq_of_lt hbound
    have hne : ¬ (now0 + t = 0) := by omega
    unfold Entry.withTTL Entry.isExpired
    simp [ht0, hmod, hne, hadv]
  have hget : (s.SetWithTTL now0 k v t).Get now1 k
      = (none, (s.SetWithTTL now0 k v t).RemoveInternal k) := by
    unfold Shard.Get
    rw [hfind]
    simp [hexp]
  refine ⟨by rw [hget], ?_, ?_⟩
  · rw [hget]
    show (storeErase (s.SetWithTTL now0 k v t).store k).length = _
    exact length_storeErase_of_mem _ _ hnd1 (mem_of_storeFind_some _ _ _ hfind)
  · rw [hget]
    exact storeFind_erase_self _ _

/-- Witness for C7 at the spec's scenario 3: a fresh capacity-3 shard,
`set_with_ttl(x, v, 100)` at t = 1000, `get(x)` at t = 1150. -/
theorem shard_ttl_expiry_observed_by_get_witness :
    ((((Shard.empty 3).SetWithTTL 1000 ("x") ("v") 100).Get 1150 ("x")).1
        = none) ∧
    ((((Shard.empty 3).SetWithTTL 1000 ("x") ("v") 100).Get 1150 ("x")).2.Size
        = ((Shard.empty 3).SetWithTTL 1000 ("x") ("v") 100).Size - 1) ∧
    (storeFind ((((Shard.empty 3).SetWithTTL 1000 ("x") ("v") 100).Get
        1150 ("x")).2).store ("x") = none) :=
  shard_ttl_expiry_observed_by_get (Shard.empty 3) ("x") ("v") 100 1000 1150
    (by decide) (by decide) (by decide) (by decide) (by decide)

/-- C10: when the stored entry for k is expired at the time of the call,
engine-level `get(k)` returns none and removes k from the routed shard's
map, recency index and TTL index, while the eviction manager — its
memory tracker and its policy bookkeeping — and the engine TTL index are
left untouched (neither `OnRead` nor `OnDelete` is invoked). -/
theorem engine_get_expired_frame (e : KVEngine) (now : Nat) (k : Key)
    (ent : Entry) (hfind : storeFind (e.sm.GetShardV k).store k = some ent)
    (hexp : ent.isExpired now = true) :
    ((e.Get now k).1 = none) ∧
    ((e.Get now k).2.em = e.em) ∧
    ((e.Get now k).2.ttlIndex = e.ttlIndex) ∧
    (storeFind ((e.Get now k).2.sm.GetShardV k).store k = none) ∧
    (k ∉ ((e.Get now k).2.sm.GetShardV k).lru.order) ∧
    (((e.Get now k).2.sm.GetShardV k).ttlIndex.keyIndex.find?
        (fun q => q.1 == k) = none) := by
  have hne : e.sm.shards ≠ [] := by
    intro h0
    have hst : (e.sm.GetShardV k).store = [] := by
      unfold ShardMgr.GetShardV
      rw [h0]
      rfl
    rw [hst] at hfind
    cases hfind
  have hidx : e.sm.hashF k % e.sm.shards.length < e.sm.shards.length :=
    Nat.mod_lt _ (List.length_pos.mpr hne)
  have hshard : (e.sm.GetShardV k).Get now k
      = (none, (e.sm.GetShardV k).RemoveInternal k) := by
    unfold Shard.Get
    rw [hfind]
    simp [hexp]
  have hget : e.Get now k
      = (none,
         { e with sm := e.sm.putShard k ((e.sm.GetShardV k).RemoveInternal k) }) := by
    unfold KVEngine.Get ShardMgr.Get
    rw [hshard]
  have hgv : (e.sm.putShard k ((e.sm.GetShardV k).RemoveInternal k)).GetShardV k
      = (e.sm.GetShardV k).RemoveInternal k := by
    unfold ShardMgr.GetShardV ShardMgr.putShard ShardMgr.shardIdx
    simp only [List.length_set]
    exact getD_set_self _ _ _ _ hidx
  refine ⟨by rw [hget], by rw [hget], by rw [hget], ?_, ?_, ?_⟩
  · rw [hget]
    show storeFind ((e.sm.putShard k _).GetShardV k).store k = none
    rw [hgv]
    exact storeFind_erase_self _ _
  · rw [hget]
    show k ∉ ((e.sm.putShard k _).GetShardV k).lru.order
    rw [hgv]
    simp [Shard.RemoveInternal, LRUCache.Remove]
  · rw [hget]
    show ((e.sm.putShard k _).GetShardV k).ttlIndex.keyIndex.find? _ = none
    rw [hgv]
    exact ttlIndex_remove_find_none _ _

/-- Witness for C10: the fresh engine after `set(k, v, ttl 100)` at
t = 1000, read at t = 1150 when the entry is expired. -/
theorem engine_get_expired_frame_witness :
    ((((freshEngine.Set 1000 ("k") ("v") (some 100)).Get 1150 ("k")).1
        = none) ∧
     (((freshEngine.Set 1000 ("k") ("v") (some 100)).Get 1150 ("k")).2.em
        = (freshEngine.Set 1000 ("k") ("v") (some 100)).em) ∧
     (((freshEngine.Set 1000 ("k") ("v") (some 100)).Get 1150 ("k")).2.ttlIndex
        = (freshEngine.Set 1000 ("k") ("v") (some 100)).ttlIndex) ∧
     (storeFind (((freshEngine.Set 1000 ("k") ("v") (some 100)).Get
          1150 ("k")).2.sm.GetShardV ("k")).store ("k") = none) ∧
     (("k") ∉ (((freshEngine.Set 1000 ("k") ("v") (some 100)).Get
          1150 ("k")).2.sm.GetShardV ("k")).lru.order) ∧
     ((((freshEngine.Set 1000 ("k") ("v") (some 100)).Get
          1150 ("k")).2.sm.GetShardV ("k")).ttlIndex.keyIndex.find?
          (fun q => q.1 == ("k")) = none)) :=
  engine_get_expired_frame (freshEngine.Set 1000 ("k") ("v") (some 100))
    1150 ("k") { value := ("v"), createdAt := 1000, expireAt := 1100 }
    (by rfl) (by decide)

/-- C9: a shard constructed with capacity C at least 1 holds at most C
entries in its map after any finite sequence of public operations
(set, set_with_ttl, get, delete, cleanup_expired). -/
theorem shard_capacity_bound (C : Nat) (hC : 1 ≤ C) (ops : List ShardOp) :
    ((Shard.empty C).runOps ops).Size ≤ C :=
  (shardInv_runOps C ops (Shard.empty C) (shardInv_empty C)).2.2.2.2

/-- Witness for C9: capacity 1 and a six-operation sequence that
overwrites, overflows, reads, deletes and sweeps. -/
theorem shard_capacity_bound_witness :
    ((Shard.empty 1).runOps
      [ShardOp.setOp 1000 ("a") ("1"), ShardOp.setOp 1001 ("b") ("2"),
       ShardOp.getOp 1002 ("a"), ShardOp.deleteOp ("b"),
       ShardOp.setTTLOp 1003 ("c") ("3") 50,
       ShardOp.cleanupOp 2000]).Size ≤ 1 :=
  shard_capacity_bound 1 (by decide)
    [ShardOp.setOp 1000 ("a") ("1"), ShardOp.setOp 1001 ("b") ("2"),
     ShardOp.getOp 1002 ("a"), ShardOp.deleteOp ("b"),
     ShardOp.setTTLOp 1003 ("c") ("3") 50,
     ShardOp.cleanupOp 2000]

end KVMemo
